import Mathlib

/-!
Shallow embedding of the todo single-page application's client-side state
management (`src/app.jsx`): the data model, the store operations, and the
derived views. Remote effects are made explicit: every operation returns the
list of remote calls it issues, and an operation that consumes a remote
response takes that response as an `Except` argument (`.ok` for a successful
call, `.error msg` for a failed one). JavaScript strings are modelled as Lean
strings (both compare lexicographically on code points, which agree on the
ASCII ISO dates used here), and JavaScript array index arithmetic is modelled
on `List`.
-/

set_option maxHeartbeats 1000000

namespace TodoApp

/-- A todo row (table `todos`). `deadline` is an optional ISO date string;
`none` models both SQL `NULL` and the blank input, which `addTodo` coerces to
`NULL` (`deadline || null`). `position` is optional because the code defaults
it defensively (`?? 0` when sorting, `?? -1` when appending). -/
structure Todo where
  id : Nat
  text : String
  category : String
  deadline : Option String
  priority : String
  done : Bool
  position : Option Int
  deriving DecidableEq

/-- A note row (table `notes`). -/
structure Note where
  id : Nat
  text : String
  inserted_at : String
  deriving DecidableEq

/-- The fields sent by the remote insert in `addTodo`. -/
structure TodoFields where
  text : String
  category : String
  deadline : Option String
  priority : String
  done : Bool
  position : Int
  deriving DecidableEq

/-- One remote (supabase) call, as issued by the operations below. -/
inductive RemoteCall where
  | insertTodo (fields : TodoFields)
  | updateTodoText (id : Nat) (text : String)
  | updateTodoDone (id : Nat) (done : Bool)
  | updateTodoCategory (id : Nat) (category : String)
  | updateTodoPosition (id : Nat) (position : Option Int)
  | deleteTodo (id : Nat)
  | insertNote (text : String)
  | deleteNote (id : Nat)
  deriving DecidableEq

/-- Strict lexicographic order on character lists. -/
def lexLt : List Char → List Char → Bool
  | [], [] => false
  | [], _ :: _ => true
  | _ :: _, [] => false
  | a :: as, b :: bs => if a < b then true else if b < a then false else lexLt as bs

/-- Models the JavaScript `<` operator on strings: lexicographic comparison of
code units (identical to code-point comparison on the ASCII ISO dates compared
here). -/
def jsStrLt (s t : String) : Bool :=
  lexLt s.data t.data

/-- Embeds `isOverdue` (app.jsx lines 4-5):
`todo.deadline && !todo.done && todo.deadline < today`. A missing deadline
(`null`, or the empty string, both modelled by `none`) is falsy, so the
conjunction stops there. `today` stands for
`new Date().toISOString().slice(0, 10)`. -/
def isOverdue (today : String) (todo : Todo) : Bool :=
  match todo.deadline with
  | none => false
  | some d => !todo.done && jsStrLt d today

/-- Models `String.prototype.trim`: strips leading and trailing whitespace
(the ASCII whitespace characters; the further JavaScript-specific whitespace
code points are outside the model). Defined structurally over the character
list so that it evaluates inside the kernel. -/
def jsTrim (s : String) : String :=
  ⟨((s.data.dropWhile Char.isWhitespace).reverse.dropWhile
      Char.isWhitespace).reverse⟩

/-- The pending-add form fields (`text`, `category`, `deadline`, `priority`
state hooks). A blank deadline is the empty string, as in the DOM input. -/
structure AddForm where
  text : String
  category : String
  deadline : String
  priority : String
  deriving DecidableEq

/-- The default values the form is reset to on a successful add. -/
def defaultForm : AddForm :=
  { text := "", category := "", deadline := "", priority := "medium" }

/-- Result of `addTodo`: the new local list, the form fields afterwards, and
the remote calls issued. -/
structure AddResult where
  todos : List Todo
  form : AddForm
  calls : List RemoteCall
  deriving DecidableEq

/-- Embeds `addTodo` (app.jsx lines 76-105). The remote insert response is the
argument `remote`: `.ok newId` models a successful insert whose returned row
carries the server-assigned id `newId` and echoes the inserted fields (the
code appends exactly the server-returned row); `.error` models a failed
insert, after which the code logs and returns early, before the lines that
clear the form. `newPosition` is `(todos.at(-1)?.position ?? -1) + 1`. -/
def addTodo (todos : List Todo) (form : AddForm) (remote : Except String Nat) :
    AddResult :=
  if jsTrim form.text = "" then ⟨todos, form, []⟩
  else
    let newPosition : Int := ((todos.getLast?.bind (·.position)).getD (-1)) + 1
    let fields : TodoFields :=
      { text := form.text
        category := if form.category = "" then "Без категории" else form.category
        deadline := if form.deadline = "" then none else some form.deadline
        priority := form.priority
        done := false
        position := newPosition }
    match remote with
    | .error _ => ⟨todos, form, [.insertTodo fields]⟩
    | .ok newId =>
      let row : Todo :=
        { id := newId, text := fields.text, category := fields.category
          deadline := fields.deadline, priority := fields.priority
          done := false, position := some newPosition }
      ⟨todos ++ [row], defaultForm, [.insertTodo fields]⟩

/-- Result of `saveEdit`: the new list, the `editingId` state afterwards, and
the remote calls issued. -/
structure EditResult where
  todos : List Todo
  editingId : Option Nat
  calls : List RemoteCall
  deriving DecidableEq

/-- Embeds `saveEdit` (app.jsx lines 112-123): a blank (whitespace-only) edit
text only cancels edit mode; otherwise the matching item's text is updated
locally and one remote update is issued. -/
def saveEdit (todos : List Todo) (editText : String) (id : Nat) : EditResult :=
  if jsTrim editText = "" then ⟨todos, none, []⟩
  else
    ⟨todos.map (fun t => if t.id = id then { t with text := editText } else t),
     none, [.updateTodoText id editText]⟩

/-- Embeds `toggleDone` (app.jsx lines 125-131). It receives the rendered todo
object; `nextDone` is computed once from that object's `done` field. -/
def toggleDone (todos : List Todo) (todo : Todo) : List Todo × List RemoteCall :=
  let nextDone := !todo.done
  (todos.map (fun t => if t.id = todo.id then { t with done := nextDone } else t),
   [.updateTodoDone todo.id nextDone])

/-- Embeds `removeTodo` (app.jsx lines 133-137). -/
def removeTodo (todos : List Todo) (todo : Todo) : List Todo × List RemoteCall :=
  (todos.filter (fun t => !(t.id = todo.id : Bool)), [.deleteTodo todo.id])

/-- Result of `onDropCategory`: the new list, the drag state afterwards, and
the remote calls issued. -/
structure CatDropResult where
  todos : List Todo
  draggedTodo : Option Todo
  dragId : Option Nat
  calls : List RemoteCall
  deriving DecidableEq

/-- Embeds `onDropCategory` (app.jsx lines 144-158), the recategorize
operation: dropping onto a group header sets the dragged todo's category. The
early return when no todo is being dragged leaves the drag state as it was;
otherwise the drag state is cleared at the end. -/
def onDropCategory (todos : List Todo) (draggedTodo : Option Todo)
    (dragId : Option Nat) (cat : String) : CatDropResult :=
  match draggedTodo with
  | none => ⟨todos, none, dragId, []⟩
  | some dt =>
    ⟨todos.map (fun t => if t.id = dt.id then { t with category := cat } else t),
     none, none, [.updateTodoCategory dt.id cat]⟩

/-- Embeds `persistPositions` (app.jsx lines 160-166): one position update per
item of the renumbered list, dispatched for all items (modelled as the list of
calls, in list order). -/
def persistPositions (list : List Todo) : List RemoteCall :=
  list.map (fun t => .updateTodoPosition t.id t.position)

/-- JavaScript `arr.splice(i, 0, a)` as a pure function: insert `a` at index
`i`, clamped to the length (an index past the end appends). -/
def spliceInsert (l : List α) (i : Nat) (a : α) : List α :=
  l.take i ++ a :: l.drop i

/-- Embeds `updated.map((t, idx) => ({ ...t, position: idx }))` (app.jsx line
179): every item's position becomes its array index. -/
def renumber (l : List Todo) : List Todo :=
  l.enum.map (fun p => { p.2 with position := some (p.1 : Int) })

/-- Result of `onDrop`: the new list, the drag state afterwards, and the
remote calls issued. -/
structure DropResult where
  todos : List Todo
  dragId : Option Nat
  draggedTodo : Option Todo
  calls : List RemoteCall
  deriving DecidableEq

/-- Embeds `onDrop` (app.jsx lines 168-186), the reorder operation. `dragId`
is the id of the item being dragged (the moved item), `id` the id of the item
dropped onto (the target). JavaScript `findIndex` returns `-1` when no element
matches while `List.findIdx` returns the length, so the `=== -1` guard becomes
an `= length` guard; the `getElem?` match is then always `some` and the `none`
branch is unreachable. The moved item is removed (`splice(from, 1)`), put back
at the target's original index (`splice(to, 0, moved)`), every item is
renumbered by array index, and one position update per item is issued. -/
def onDrop (todos : List Todo) (dragId : Option Nat) (draggedTodo : Option Todo)
    (id : Nat) : DropResult :=
  match dragId with
  | none => ⟨todos, none, draggedTodo, []⟩
  | some d =>
    if d = id then ⟨todos, some d, draggedTodo, []⟩
    else
      let fromIdx := todos.findIdx (fun t => t.id = d)
      let toIdx := todos.findIdx (fun t => t.id = id)
      if fromIdx = todos.length ∨ toIdx = todos.length then
        ⟨todos, some d, draggedTodo, []⟩
      else
        match todos[fromIdx]? with
        | none => ⟨todos, some d, draggedTodo, []⟩
        | some moved =>
          let withPos := renumber (spliceInsert (todos.eraseIdx fromIdx) toIdx moved)
          ⟨withPos, none, none, persistPositions withPos⟩

/-- Result of `loadTodos`: the list, loading flag and load-error message after
the operation settles. -/
structure LoadResult where
  todos : List Todo
  loading : Bool
  loadError : String
  deriving DecidableEq

/-- Embeds `loadTodos` (app.jsx lines 56-74). The remote select response is
the argument: on success the fetched rows replace the list (`data ?? []` is
the rows themselves here, `none` data being out of scope of the client model)
and the error banner is cleared; on failure the list state is not touched and
the banner shows `e?.message || 'Ошибка загрузки'`. The loading flag is true
for the duration and false once settled, so it is false in the result. -/
def loadTodos (todos : List Todo) (remote : Except String (List Todo)) :
    LoadResult :=
  match remote with
  | .ok rows => ⟨rows, false, ""⟩
  | .error msg => ⟨todos, false, if msg = "" then "Ошибка загрузки" else msg⟩

/-- Result of `addNote`: the note list, the input field and the error banner
afterwards, and the remote calls issued. -/
structure AddNoteResult where
  notes : List Note
  noteText : String
  notesError : String
  calls : List RemoteCall
  deriving DecidableEq

/-- Embeds `addNote` (app.jsx lines 256-272). The trimmed text is inserted; a
successful insert (`.ok (newId, insertedAt)` models the returned row) appends
the server row and clears the input; a failed one surfaces the error message
and keeps the input. A blank input is a silent no-op. -/
def addNote (notes : List Note) (noteText : String) (notesError : String)
    (remote : Except String (Nat × String)) : AddNoteResult :=
  let value := jsTrim noteText
  if value = "" then ⟨notes, noteText, notesError, []⟩
  else
    match remote with
    | .error msg => ⟨notes, noteText, msg, [.insertNote value]⟩
    | .ok (newId, insertedAt) =>
      ⟨notes ++ [{ id := newId, text := value, inserted_at := insertedAt }],
       "", "", [.insertNote value]⟩

/-- Embeds `deleteNote` (app.jsx lines 274-278). -/
def deleteNote (notes : List Note) (id : Nat) : List Note × List RemoteCall :=
  (notes.filter (fun n => !(n.id = id : Bool)), [.deleteNote id])

/-- Models `JSON.parse` restricted to the documents this flag ever deals
with: the two boolean documents (the only values `JSON.stringify(glowEnabled)`
writes back) parse to the corresponding `Bool`; any other document is treated
as a parse failure, modelling the `SyntaxError` that `JSON.parse` raises on
malformed input. (JSON documents of other types, e.g. numbers, are outside
this model.) -/
def jsonParseBool (s : String) : Except String Bool :=
  if s = "true" then .ok true
  else if s = "false" then .ok false
  else .error "SyntaxError"

/-- Models `JSON.stringify` on the boolean flag. -/
def jsonStringifyBool (b : Bool) : String :=
  if b then "true" else "false"

/-- Embeds the `glowEnabled` initializer (app.jsx lines 25-28):
`saved ? JSON.parse(saved) : true`. `saved` is `localStorage.getItem('glow')`
(`none` when the key is absent). `null` and the empty string are falsy, so
both give `true`; any other stored value is fed to `JSON.parse`, whose
`SyntaxError` on unparsable input propagates out of the initializer
(modelled as `.error`). -/
def glowInit (saved : Option String) : Except String Bool :=
  match saved with
  | none => .ok true
  | some s => if s = "" then .ok true else jsonParseBool s

/-- Embeds the write-back effect (app.jsx lines 47-49): whenever the flag
changes, the key `glow` is set to `JSON.stringify(glowEnabled)`. The result is
the key-value pair written. -/
def glowPersist (glowEnabled : Bool) : String × String :=
  ("glow", jsonStringifyBool glowEnabled)

/-- The sort key of `orderedTodos` (app.jsx line 194): `position ?? 0`. -/
def sortKey (t : Todo) : Int :=
  t.position.getD 0

/-- Embeds `orderedTodos` (app.jsx line 194): a stable sort of the list by
`(a.position ?? 0) - (b.position ?? 0)`. JavaScript `Array.prototype.sort` is
required to be stable and is otherwise unspecified, so any stable sorting
algorithm models it; `List.insertionSort` is stable and evaluates inside the
kernel. -/
def orderedTodos (todos : List Todo) : List Todo :=
  List.insertionSort (fun a b => sortKey a ≤ sortKey b) todos

/-- One step of the `reduce` building `grouped` (app.jsx lines 196-200):
`acc[todo.category] ||= []; acc[todo.category].push(todo)`. On an object
modelled as an association list in property-insertion order: an existing key
keeps its place and gets the todo appended to its group; a new key is added at
the end with the singleton group. -/
def insertGrouped (acc : List (String × List Todo)) (todo : Todo) :
    List (String × List Todo) :=
  if acc.any (fun p => p.1 = todo.category) then
    acc.map (fun p => if p.1 = todo.category then (p.1, p.2 ++ [todo]) else p)
  else acc ++ [(todo.category, [todo])]

/-- The `grouped` object (app.jsx lines 196-200) as an association list in
property-insertion order, before the property-enumeration order of
`Object.entries` is applied. -/
def groupedObj (todos : List Todo) : List (String × List Todo) :=
  (orderedTodos todos).foldl insertGrouped []

/-- The numeric value of a digit string (most significant digit first). -/
def digitsVal (cs : List Char) : Nat :=
  cs.foldl (fun n c => 10 * n + (c.toNat - 48)) 0

/-- Whether a string is a canonical array-index property name in the sense of
ECMAScript own-property ordering: the canonical decimal form (no leading
zero, except `0` itself) of an integer below 2^32 - 1. Such keys are
enumerated first, in ascending numeric order, regardless of insertion
order. -/
def isCanonicalIndex (s : String) : Bool :=
  match s.data with
  | [] => false
  | c :: cs =>
    (c :: cs).all Char.isDigit
      && (decide (c ≠ '0') || decide (cs = []))
      && decide (digitsVal (c :: cs) < 2 ^ 32 - 1)

/-- The numeric value used to order array-index property names. -/
def indexVal (s : String) : Nat :=
  digitsVal s.data

/-- Models `Object.entries` (app.jsx line 412) on an object given as an
association list in property-insertion order: per ECMAScript own-property
ordering, canonical array-index keys come first in ascending numeric order,
then the remaining (string) keys in insertion order. -/
def jsEntries (l : List (String × List Todo)) : List (String × List Todo) :=
  List.insertionSort (fun a b => indexVal a.1 ≤ indexVal b.1)
      (l.filter (fun p => isCanonicalIndex p.1))
    ++ l.filter (fun p => !(isCanonicalIndex p.1))

/-- The grouped view as the UI enumerates it: the insertion-ordered object in
`Object.entries` order. -/
def grouped (todos : List Todo) : List (String × List Todo) :=
  jsEntries (groupedObj todos)

/-- The group keys in first-occurrence order of a list of category strings
(the order the specification describes for the grouped view). -/
def firstKeys (cats : List String) : List String :=
  cats.foldl (fun ks c => if ks.any (fun k => k = c) then ks else ks ++ [c]) []

/-- Looks a group up by key in the association-list object (the value of
`acc[key]`, `none` when the property is absent). -/
def lookupG (acc : List (String × List Todo)) (k : String) :
    Option (List Todo) :=
  (acc.find? (fun p => p.1 = k)).map (·.2)

/-- Combines the group a key had before a fold with the todos the fold
appends to it: an existing group grows by the new todos; an absent key
appears exactly when at least one todo carries it. -/
def combineG (o : Option (List Todo)) (f : List Todo) : Option (List Todo) :=
  match o with
  | some v => some (v ++ f)
  | none => if f = [] then none else some f

/-- Looks a todo up by id, as the rendered list does. -/
def findTodo (todos : List Todo) (id : Nat) : Option Todo :=
  todos.find? (fun t => t.id = id)

/-- The maximum stored position of a list (the quantity the specification's
`max existing position + 1` refers to), `none` when no todo has one. -/
def maxPosition (todos : List Todo) : Option Int :=
  (todos.filterMap (·.position)).max?

/-! Concrete sample data used to instantiate the theorems below. -/

/-- Sample todo A: id 1, position 0. -/
def sampleA : Todo :=
  { id := 1, text := "buy milk", category := "errands", deadline := none
    priority := "medium", done := false, position := some 0 }

/-- Sample todo B: id 2, position 1. -/
def sampleB : Todo :=
  { id := 2, text := "call mom", category := "errands", deadline := none
    priority := "high", done := false, position := some 1 }

/-- Sample todo C: id 3, position 2. -/
def sampleC : Todo :=
  { id := 3, text := "write report", category := "work", deadline := none
    priority := "low", done := false, position := some 2 }

/-- A todo whose position (5) is larger than the one after it. -/
def samplePos5 : Todo :=
  { id := 4, text := "first", category := "x", deadline := none
    priority := "medium", done := false, position := some 5 }

/-- A todo stored after `samplePos5` but with smaller position (2). -/
def samplePos2 : Todo :=
  { id := 5, text := "second", category := "x", deadline := none
    priority := "medium", done := false, position := some 2 }

/-- A todo whose category is the canonical array-index string `1`. -/
def sampleCat1 : Todo :=
  { id := 6, text := "n1", category := "1", deadline := none
    priority := "medium", done := false, position := some 0 }

/-- A todo whose category is the canonical array-index string `0`. -/
def sampleCat0 : Todo :=
  { id := 7, text := "n0", category := "0", deadline := none
    priority := "medium", done := false, position := some 1 }

/-- A sample filled-in add form. -/
def sampleForm : AddForm :=
  { text := "hi", category := "", deadline := "", priority := "medium" }

/-- A todo whose id (99) is absent from the sample lists. -/
def sample99 : Todo :=
  { id := 99, text := "ghost", category := "work", deadline := none
    priority := "low", done := false, position := some 7 }

/-! Theorems. -/

/-- Helper: mapping an id-keyed update over a list without the key leaves the
list unchanged. -/
theorem map_keyed_id (ts : List Todo) (i : Nat) (f : Todo → Todo)
    (h : i ∉ ts.map (·.id)) :
    ts.map (fun t => if t.id = i then f t else t) = ts := by
  induction ts with
  | nil => rfl
  | cons a l ih =>
    simp only [List.map_cons, List.mem_cons] at h ⊢
    push_neg at h
    rw [if_neg (fun hc => h.1 hc.symm), ih h.2]

/-- C6: a todo is overdue exactly when it has a deadline, is not done, and the
deadline is strictly earlier than the current date; in particular a done todo
is never overdue, whatever its deadline. -/
theorem isOverdue_characterization (today : String) (t : Todo) :
    (isOverdue today t = true ↔
      ∃ d, t.deadline = some d ∧ t.done = false ∧ jsStrLt d today = true) ∧
    (t.done = true → isOverdue today t = false) := by
  cases hd : t.deadline with
  | none => simp [isOverdue, hd]
  | some d =>
    constructor
    · constructor
      · intro h
        simp only [isOverdue, hd, Bool.and_eq_true, Bool.not_eq_true'] at h
        exact ⟨d, rfl, h.1, h.2⟩
      · rintro ⟨d', hd', hdone, hlt⟩
        cases hd'
        simp [isOverdue, hd, hdone, hlt]
    · intro hdone
      simp [isOverdue, hd, hdone]

/-- C6 witness: a done todo with a long-past deadline is not overdue. -/
theorem isOverdue_characterization_witness :
    isOverdue "2026-10-11" { sampleA with done := true, deadline := some "2000-01-01" } = false :=
  (isOverdue_characterization "2026-10-11" _).2 rfl

/-- C3: with empty or whitespace-only input, `addTodo`, `saveEdit` and
`addNote` each leave their local list unchanged and issue no remote call. -/
theorem blank_input_noop (ts : List Todo) (form : AddForm) (r : Except String Nat)
    (etext : String) (eid : Nat) (notes : List Note) (ntext nerr : String)
    (nr : Except String (Nat × String)) :
    (jsTrim form.text = "" →
      (addTodo ts form r).todos = ts ∧ (addTodo ts form r).calls = []) ∧
    (jsTrim etext = "" →
      (saveEdit ts etext eid).todos = ts ∧ (saveEdit ts etext eid).calls = []) ∧
    (jsTrim ntext = "" →
      (addNote notes ntext nerr nr).notes = notes ∧
        (addNote notes ntext nerr nr).calls = []) := by
  refine ⟨fun h => ?_, fun h => ?_, fun h => ?_⟩
  · simp [addTodo, h]
  · simp [saveEdit, h]
  · simp [addNote, h]

/-- C3 witness: whitespace-only inputs at concrete states. -/
theorem blank_input_noop_witness :
    (addTodo [sampleA] { text := "  ", category := "c", deadline := "", priority := "low" }
        (.ok 9)).todos = [sampleA] ∧
    (saveEdit [sampleA] " \t " 1).calls = [] ∧
    (addNote [] "   " "" (.ok (1, "2026-10-11T00:00:00Z"))).notes = [] := by
  have h := blank_input_noop [sampleA]
    { text := "  ", category := "c", deadline := "", priority := "low" } (.ok 9)
    " \t " 1 [] "   " "" (.ok (1, "2026-10-11T00:00:00Z"))
  exact ⟨(h.1 (by decide)).1, (h.2.1 (by decide)).2, (h.2.2 (by decide)).1⟩

/-- C8 counterexample: a failed reload with a non-empty prior list surfaces the
error but leaves the previous todos in place, so the list is not empty. -/
theorem loadTodos_failure_counterexample :
    (loadTodos [sampleA] (.error "network down")).todos ≠ [] := by decide

/-- C8 (amended): when the remote fetch fails, `loadTodos` surfaces a
non-empty load-error message and leaves the local todo list unchanged (hence
empty only when it was already empty, as on the initial load), with the
loading flag lowered. -/
theorem loadTodos_failure_keeps_list (ts : List Todo) (msg : String) :
    (loadTodos ts (.error msg)).todos = ts ∧
    (loadTodos ts (.error msg)).loadError ≠ "" ∧
    (loadTodos ts (.error msg)).loading = false := by
  refine ⟨rfl, ?_, rfl⟩
  simp only [loadTodos]
  split
  · decide
  · assumption

/-- C9 counterexample: an unparsable stored value makes the initializer raise
a `SyntaxError` (modelled as `.error`) instead of defaulting to `true`. -/
theorem glowInit_unparsable_counterexample :
    glowInit (some "xyz") ≠ .ok true := by
  intro h
  rw [show glowInit (some "xyz") = .error "SyntaxError" from rfl] at h
  exact Except.noConfusion h

/-- C9 (amended): the glow flag initializes to the stored boolean when one is
stored, and to `true` when the stored value is absent or empty; an unparsable
stored value raises a parse error instead of defaulting. On every change the
flag is written back under the `glow` key as its JSON encoding, which
re-initializes to the same flag. -/
theorem glowInit_characterization (b : Bool) :
    glowInit none = .ok true ∧
    glowInit (some "") = .ok true ∧
    glowPersist b = ("glow", jsonStringifyBool b) ∧
    glowInit (some (glowPersist b).2) = .ok b ∧
    glowInit (some "xyz") = .error "SyntaxError" := by
  refine ⟨rfl, rfl, rfl, ?_, rfl⟩
  cases b <;> rfl

/-- C10: for an id absent from the list, `toggleDone`, `saveEdit` (with
non-blank text) and `onDropCategory` each leave the local list unchanged (the
per-item map matches nothing) while still issuing their remote update for that
id. -/
theorem absent_id_updates (ts : List Todo) (todo : Todo) (etext : String)
    (eid : Nat) (dt : Todo) (dragId : Option Nat) (cat : String) :
    (todo.id ∉ ts.map (·.id) →
      toggleDone ts todo = (ts, [.updateTodoDone todo.id (!todo.done)])) ∧
    (jsTrim etext ≠ "" → eid ∉ ts.map (·.id) →
      saveEdit ts etext eid = ⟨ts, none, [.updateTodoText eid etext]⟩) ∧
    (dt.id ∉ ts.map (·.id) →
      onDropCategory ts (some dt) dragId cat =
        ⟨ts, none, none, [.updateTodoCategory dt.id cat]⟩) := by
  refine ⟨fun h => ?_, fun hne h => ?_, fun h => ?_⟩
  · simp only [toggleDone]
    rw [map_keyed_id ts todo.id _ h]
  · simp only [saveEdit, if_neg hne]
    rw [map_keyed_id ts eid _ h]
  · simp only [onDropCategory]
    rw [map_keyed_id ts dt.id _ h]

/-- C10 witness: updates keyed to the absent id 99 on a two-item list. -/
theorem absent_id_updates_witness :
    toggleDone [sampleA, sampleB] sample99 =
      ([sampleA, sampleB], [.updateTodoDone sample99.id (!sample99.done)]) ∧
    saveEdit [sampleA, sampleB] "new text" 99 =
      ⟨[sampleA, sampleB], none, [.updateTodoText 99 "new text"]⟩ ∧
    onDropCategory [sampleA, sampleB] (some sample99) (some 99) "work" =
      ⟨[sampleA, sampleB], none, none, [.updateTodoCategory sample99.id "work"]⟩ := by
  have h := absent_id_updates [sampleA, sampleB] sample99 "new text" 99
    sample99 (some 99) "work"
  exact ⟨h.1 (by decide), h.2.1 (by decide) (by decide), h.2.2 (by decide)⟩

/-- Helper: looking a todo up by id commutes with an id-preserving keyed map
over the list. -/
theorem findTodo_map_keyed (ts : List Todo) (i j : Nat) (f : Todo → Todo)
    (hf : ∀ t, (f t).id = t.id) :
    findTodo (ts.map (fun t => if t.id = j then f t else t)) i =
      (findTodo ts i).map (fun t => if t.id = j then f t else t) := by
  induction ts with
  | nil => rfl
  | cons a l ih =>
    have hid : (if a.id = j then f a else a).id = a.id := by
      split
      · exact hf a
      · rfl
    by_cases hai : a.id = i
    · rw [findTodo, List.map_cons,
        List.find?_cons_of_pos _ (by simp only [decide_eq_true_eq, hid]; exact hai),
        findTodo, List.find?_cons_of_pos _ (by simp only [decide_eq_true_eq]; exact hai)]
      rfl
    · rw [findTodo, List.map_cons,
        List.find?_cons_of_neg _ (by simp only [decide_eq_true_eq, hid]; exact hai),
        findTodo, List.find?_cons_of_neg _ (by simp only [decide_eq_true_eq]; exact hai)]
      exact ih

/-- C7: toggling a present id flips that todo's `done` flag, and toggling it
again (with the updated todo object, as the UI does) restores the original
todo, `done` value included. -/
theorem toggleDone_involutive (ts : List Todo) (i : Nat) (t : Todo)
    (h : findTodo ts i = some t) :
    findTodo (toggleDone ts t).1 i = some { t with done := !t.done } ∧
    findTodo (toggleDone (toggleDone ts t).1 { t with done := !t.done }).1 i =
      some t := by
  have h1 : findTodo (toggleDone ts t).1 i = some { t with done := !t.done } := by
    have hmap := findTodo_map_keyed ts i t.id
      (fun x => { x with done := !t.done }) (fun _ => rfl)
    rw [show (toggleDone ts t).1 =
        ts.map (fun x => if x.id = t.id then { x with done := !t.done } else x)
      from rfl, hmap, h]
    simp
  refine ⟨h1, ?_⟩
  have hmap2 := findTodo_map_keyed (toggleDone ts t).1 i t.id
    (fun x => { x with done := !(!t.done) }) (fun _ => rfl)
  rw [show (toggleDone (toggleDone ts t).1 { t with done := !t.done }).1 =
      ((toggleDone ts t).1).map
        (fun x => if x.id = t.id then { x with done := !(!t.done) } else x)
    from rfl, hmap2, h1]
  simp

/-- C7 witness: double toggle of id 2 in the sample list. -/
theorem toggleDone_involutive_witness :
    findTodo (toggleDone (toggleDone [sampleA, sampleB] sampleB).1
        { sampleB with done := !sampleB.done }).1 2 = some sampleB :=
  (toggleDone_involutive [sampleA, sampleB] 2 sampleB (by decide)).2

/-- C4 counterexample: when the remote insert fails, `addTodo` returns before
the lines that clear the form, so the pending-input fields keep their values
and are not reset to the defaults. -/
theorem addTodo_form_reset_counterexample :
    (addTodo [] sampleForm (.error "insert failed")).form = sampleForm ∧
    sampleForm ≠ defaultForm := by decide

/-- C4 (amended): after an `addTodo` with non-blank text, the four
pending-input fields are reset to their defaults when the remote insert
succeeds; when it fails they are left unchanged. -/
theorem addTodo_form_reset_on_success (ts : List Todo) (form : AddForm)
    (nid : Nat) (e : String) (h : jsTrim form.text ≠ "") :
    (addTodo ts form (.ok nid)).form = defaultForm ∧
    (addTodo ts form (.error e)).form = form := by
  constructor <;> simp [addTodo, h]

/-- C4 witness: the sample form at a concrete success and failure. -/
theorem addTodo_form_reset_on_success_witness :
    (addTodo [] sampleForm (.ok 8)).form = defaultForm ∧
    (addTodo [] sampleForm (.error "boom")).form = sampleForm :=
  addTodo_form_reset_on_success [] sampleForm 8 "boom" (by decide)

/-- C1 counterexample: on the list `[samplePos5, samplePos2]` (positions 5
then 2, which a reorder of a partially-loaded remote state can produce), a
successful add stores position 3 = last + 1, not 6 = max + 1; and when the
remote insert fails the list length does not increase at all. -/
theorem addTodo_max_position_counterexample :
    ((addTodo [samplePos5, samplePos2] sampleForm (.ok 8)).todos.getLast?.bind
        (·.position)) = some 3 ∧
    maxPosition [samplePos5, samplePos2] = some 5 ∧
    (3 : Int) ≠ 5 + 1 ∧
    (addTodo [samplePos5, samplePos2] sampleForm (.error "boom")).todos.length =
      [samplePos5, samplePos2].length := by decide

/-- C1 (amended): for non-blank text, when the remote insert succeeds,
`addTodo` grows the local list by exactly one and the appended todo's position
is the last element's position plus 1 (an absent position counting as -1),
which is 0 for an empty list. -/
theorem addTodo_appends_last_position (ts : List Todo) (form : AddForm)
    (nid : Nat) (h : jsTrim form.text ≠ "") :
    (addTodo ts form (.ok nid)).todos.length = ts.length + 1 ∧
    ((addTodo ts form (.ok nid)).todos.getLast?.bind (·.position)) =
      some ((ts.getLast?.bind (·.position)).getD (-1) + 1) := by
  constructor <;> simp [addTodo, h]

/-- C1 witness: adding to the empty list stores position 0. -/
theorem addTodo_appends_last_position_witness :
    (addTodo [] sampleForm (.ok 8)).todos.length = 1 ∧
    ((addTodo [] sampleForm (.ok 8)).todos.getLast?.bind (·.position)) =
      some 0 := by
  have h := addTodo_appends_last_position [] sampleForm 8 (by decide)
  exact ⟨h.1, by rw [h.2]; decide⟩

/-- Helper: `eraseIdx` commutes with `map`. -/
theorem eraseIdx_map_comm (f : Todo → α) (l : List Todo) (i : Nat) :
    (l.map f).eraseIdx i = (l.eraseIdx i).map f := by
  induction l generalizing i with
  | nil => rfl
  | cons a l ih =>
    cases i with
    | zero => rfl
    | succ n => simp [List.map_cons, List.eraseIdx_cons_succ, ih]

/-- Helper: `spliceInsert` commutes with `map`. -/
theorem spliceInsert_map_comm (f : Todo → α) (l : List Todo) (i : Nat) (a : Todo) :
    (spliceInsert l i a).map f = spliceInsert (l.map f) i (f a) := by
  simp [spliceInsert]

/-- Helper: inserting at an index within bounds grows the length by one. -/
theorem length_spliceInsert (l : List Todo) (i : Nat) (a : Todo)
    (h : i ≤ l.length) :
    (spliceInsert l i a).length = l.length + 1 := by
  simp [spliceInsert]
  omega

/-- Helper: `renumber` keeps every todo's id (in order). -/
theorem renumber_map_id (l : List Todo) :
    (renumber l).map (·.id) = l.map (·.id) := by
  rw [renumber, List.map_map,
    show ((fun x => x.id) ∘ fun p : Nat × Todo =>
        ({ p.2 with position := some (p.1 : Int) } : Todo))
      = ((fun x => x.id) ∘ Prod.snd) from rfl,
    ← List.map_map, List.enum_eq_enumFrom, List.enumFrom_map_snd]

/-- Helper: after `renumber`, the stored positions are exactly the array
indices `0 .. n-1`. -/
theorem renumber_map_position (l : List Todo) :
    (renumber l).map (·.position) =
      (List.range l.length).map (fun i => some (Int.ofNat i)) := by
  rw [renumber, List.map_map,
    show ((fun x => x.position) ∘ fun p : Nat × Todo =>
        ({ p.2 with position := some (p.1 : Int) } : Todo))
      = ((fun i : Nat => some (Int.ofNat i)) ∘ Prod.fst) from rfl,
    ← List.map_map, List.enum_eq_enumFrom, List.enumFrom_map_fst,
    ← List.range_eq_range']

/-- Helper: the element at `findIdx` satisfies the searched predicate. -/
theorem findIdx_found (p : Todo → Bool) (l : List Todo)
    (h : l.findIdx p < l.length) :
    p (l.get ⟨l.findIdx p, h⟩) = true := by
  induction l with
  | nil => simp at h
  | cons a l ih =>
    by_cases hpa : p a
    · simp [List.findIdx_cons, hpa]
    · simp only [List.findIdx_cons, hpa, cond_false, List.length_cons] at h ⊢
      exact ih (by omega)

/-- Helper: `onDrop` with distinct ids both present reduces to the
remove-reinsert-renumber pipeline, and issues the position updates for the
renumbered list. -/
theorem onDrop_eq_of_present (ts : List Todo) (d tid : Nat) (dtd : Option Todo)
    (hne : d ≠ tid)
    (hfrom : ts.findIdx (fun t => t.id = d) < ts.length)
    (hto : ts.findIdx (fun t => t.id = tid) < ts.length) :
    onDrop ts (some d) dtd tid =
      ⟨renumber (spliceInsert (ts.eraseIdx (ts.findIdx (fun t => t.id = d)))
          (ts.findIdx (fun t => t.id = tid))
          (ts.get ⟨ts.findIdx (fun t => t.id = d), hfrom⟩)),
        none, none,
        persistPositions (renumber (spliceInsert
          (ts.eraseIdx (ts.findIdx (fun t => t.id = d)))
          (ts.findIdx (fun t => t.id = tid))
          (ts.get ⟨ts.findIdx (fun t => t.id = d), hfrom⟩)))⟩ := by
  simp only [onDrop]
  rw [if_neg hne, if_neg (by omega), List.getElem?_eq_getElem hfrom]
  rfl

/-- C2: for distinct ids both present in the list, reorder produces the list
obtained by removing the moved item and reinserting it at the target's
(original) index, and renumbers every item's position to its array index, so
the positions afterwards are exactly `0 .. n-1`. -/
theorem onDrop_reorders_and_renumbers (ts : List Todo) (d tid : Nat)
    (dtd : Option Todo) (hne : d ≠ tid)
    (hd : ∃ t ∈ ts, t.id = d) (ht : ∃ t ∈ ts, t.id = tid) :
    (onDrop ts (some d) dtd tid).todos.map (·.id) =
      spliceInsert ((ts.map (·.id)).eraseIdx (ts.findIdx (fun t => t.id = d)))
        (ts.findIdx (fun t => t.id = tid)) d ∧
    (onDrop ts (some d) dtd tid).todos.map (·.position) =
      (List.range ts.length).map (fun i => some (Int.ofNat i)) := by
  have hd' : ∃ t ∈ ts, (fun t => (t.id = d : Bool)) t := by simpa using hd
  have ht' : ∃ t ∈ ts, (fun t => (t.id = tid : Bool)) t := by simpa using ht
  have hfrom := List.findIdx_lt_length_of_exists hd'
  have hto := List.findIdx_lt_length_of_exists ht'
  have hmoved : (ts.get ⟨ts.findIdx (fun t => t.id = d), hfrom⟩).id = d := by
    have := findIdx_found (fun t => (t.id = d : Bool)) ts hfrom
    simpa using this
  have hlen : (spliceInsert (ts.eraseIdx (ts.findIdx (fun t => t.id = d)))
      (ts.findIdx (fun t => t.id = tid))
      (ts.get ⟨ts.findIdx (fun t => t.id = d), hfrom⟩)).length = ts.length := by
    rw [length_spliceInsert _ _ _
      (by rw [List.length_eraseIdx_of_lt hfrom]; omega),
      List.length_eraseIdx_of_lt hfrom]
    omega
  rw [onDrop_eq_of_present ts d tid dtd hne hfrom hto]
  constructor
  · rw [renumber_map_id, spliceInsert_map_comm, eraseIdx_map_comm, hmoved]
  · rw [renumber_map_position, hlen]

/-- C2 witness: the specification's scenario. The list holds todos with
positions `[0,1,2]` and ids `1,2,3` (A,B,C); `reorder(C, A)` yields local
order `[C,A,B]` with positions `[0,1,2]`. -/
theorem onDrop_reorders_and_renumbers_witness :
    (onDrop [sampleA, sampleB, sampleC] (some 3) none 1).todos.map (·.id) =
      [3, 1, 2] ∧
    (onDrop [sampleA, sampleB, sampleC] (some 3) none 1).todos.map (·.position) =
      [some 0, some 1, some 2] := by
  have h := onDrop_reorders_and_renumbers [sampleA, sampleB, sampleC] 3 1 none
    (by decide) (by decide) (by decide)
  exact ⟨by rw [h.1]; decide, by rw [h.2]; decide⟩

/-- Helper: the keys of the object after one `reduce` step: unchanged when the
category is already a key, otherwise extended at the end. -/
theorem keys_insertGrouped (acc : List (String × List Todo)) (t : Todo) :
    (insertGrouped acc t).map (·.1) =
      if acc.any (fun p => p.1 = t.category) then acc.map (·.1)
      else acc.map (·.1) ++ [t.category] := by
  rw [insertGrouped]
  split
  · rw [List.map_map]
    apply List.map_congr_left
    intro p _
    by_cases hp : p.1 = t.category <;> simp [hp]
  · rw [List.map_append]
    rfl

/-- Helper: the keys of the folded object are the fold of the key-step over
the categories. -/
theorem keys_foldl (l : List Todo) :
    ∀ acc : List (String × List Todo),
      (l.foldl insertGrouped acc).map (·.1) =
        l.foldl (fun ks t => if ks.any (fun k => k = t.category) then ks
          else ks ++ [t.category]) (acc.map (·.1)) := by
  induction l with
  | nil => intro acc; rfl
  | cons a l ih =>
    intro acc
    simp only [List.foldl_cons]
    rw [ih (insertGrouped acc a), keys_insertGrouped]
    have hc : (acc.map (·.1)).any (fun k => k = a.category) =
        acc.any (fun p => p.1 = a.category) := by
      induction acc with
      | nil => rfl
      | cons q qs ihq => simp only [List.map_cons, List.any_cons, ihq]
    rw [hc]

/-- Helper: `find?` by key commutes with the value-adjusting map of
`insertGrouped`, which preserves every key. -/
theorem find_fst_map_adjust (acc : List (String × List Todo)) (c k : String)
    (t : Todo) :
    (acc.map (fun p => if p.1 = c then (p.1, p.2 ++ [t]) else p)).find?
        (fun p => p.1 = k) =
      (acc.find? (fun p => p.1 = k)).map
        (fun p => if p.1 = c then (p.1, p.2 ++ [t]) else p) := by
  induction acc with
  | nil => rfl
  | cons a acc ih =>
    have hid : (if a.1 = c then (a.1, a.2 ++ [t]) else a).1 = a.1 := by
      split
      · rfl
      · rfl
    by_cases hak : a.1 = k
    · rw [List.map_cons,
        List.find?_cons_of_pos _ (by simp only [decide_eq_true_eq, hid]; exact hak),
        List.find?_cons_of_pos _ (by simp only [decide_eq_true_eq]; exact hak)]
      rfl
    · rw [List.map_cons,
        List.find?_cons_of_neg _ (by simp only [decide_eq_true_eq, hid]; exact hak),
        List.find?_cons_of_neg _ (by simp only [decide_eq_true_eq]; exact hak)]
      exact ih

/-- Helper: how one `reduce` step changes the value stored under a key. -/
theorem lookupG_insertGrouped (acc : List (String × List Todo)) (t : Todo)
    (k : String) :
    lookupG (insertGrouped acc t) k =
      if k = t.category then some ((lookupG acc k).getD [] ++ [t])
      else lookupG acc k := by
  rw [insertGrouped]
  by_cases hc : acc.any (fun p => p.1 = t.category)
  · rw [if_pos hc, lookupG, find_fst_map_adjust acc t.category k t]
    by_cases hk : k = t.category
    · rw [if_pos hk]
      cases hfind : acc.find? (fun p => p.1 = k) with
      | none =>
        exfalso
        obtain ⟨p, hpmem, hpc⟩ := List.any_eq_true.mp hc
        have hnp := List.find?_eq_none.mp hfind p hpmem
        simp only [decide_eq_true_eq] at hpc hnp
        exact hnp (by rw [hpc, hk])
      | some p =>
        have hp1 : p.1 = k := by
          have := List.find?_some hfind
          simpa using this
        rw [Option.map_some', Option.map_some',
          if_pos (by rw [hp1]; exact hk), lookupG, hfind, Option.map_some',
          Option.getD_some]
    · rw [if_neg hk]
      cases hfind : acc.find? (fun p => p.1 = k) with
      | none =>
        rw [lookupG, hfind]
        rfl
      | some p =>
        have hp1 : p.1 = k := by
          have := List.find?_some hfind
          simpa using this
        rw [lookupG, hfind, Option.map_some', Option.map_some',
          if_neg (by rw [hp1]; exact hk)]
        rfl
  · rw [if_neg hc, lookupG, List.find?_append]
    rw [Bool.not_eq_true] at hc
    have hnone : acc.find? (fun p => p.1 = t.category) = none := by
      rw [List.find?_eq_none]
      intro p hpmem
      have := List.any_eq_false.mp hc p hpmem
      simpa using this
    by_cases hk : k = t.category
    · subst hk
      rw [hnone, Option.none_or, List.find?_cons_of_pos _ (by simp),
        if_pos rfl, lookupG, hnone]
      rfl
    · rw [List.find?_cons_of_neg _ (by simpa using fun he => hk he.symm),
        List.find?_nil, Option.or_none, if_neg hk]
      rfl

/-- Helper: the value stored under a key after folding the whole list is the
previous value extended by every todo of that category, in list order. -/
theorem lookupG_foldl (l : List Todo) :
    ∀ (acc : List (String × List Todo)) (k : String),
      lookupG (l.foldl insertGrouped acc) k =
        combineG (lookupG acc k) (l.filter (fun t => t.category = k)) := by
  induction l with
  | nil =>
    intro acc k
    cases h : lookupG acc k <;> simp [combineG, h]
  | cons a l ih =>
    intro acc k
    simp only [List.foldl_cons]
    rw [ih, lookupG_insertGrouped]
    by_cases hk : k = a.category
    · rw [if_pos hk, List.filter_cons_of_pos (by simp [hk])]
      cases h : lookupG acc k with
      | none => simp [combineG, h]
      | some v => simp [combineG, h]
    · rw [if_neg hk,
        List.filter_cons_of_neg (by simpa using fun he => hk he.symm)]

/-- Helper: folding the list never duplicates a key of the object. -/
theorem nodup_keys_foldl (l : List Todo) :
    ∀ acc : List (String × List Todo),
      ((acc.map (·.1)).Nodup) → (((l.foldl insertGrouped acc).map (·.1)).Nodup) := by
  induction l with
  | nil => intro acc h; exact h
  | cons a l ih =>
    intro acc h
    simp only [List.foldl_cons]
    apply ih
    rw [keys_insertGrouped]
    by_cases hc : acc.any (fun p => p.1 = a.category)
    · rw [if_pos hc]
      exact h
    · rw [if_neg hc, List.nodup_append]
      rw [Bool.not_eq_true] at hc
      refine ⟨h, List.nodup_singleton _, ?_⟩
      intro c hcmem hcmem1
      rw [List.mem_singleton] at hcmem1
      obtain ⟨p, hpmem, hpc⟩ := List.mem_map.mp hcmem
      have := List.any_eq_false.mp hc p hpmem
      simp only [decide_eq_true_eq] at this
      exact this (by rw [hpc, hcmem1])

/-- Helper: in an association list with pairwise distinct keys, searching for
the key of a member finds exactly that member. -/
theorem find_self_of_nodup (l : List (String × List Todo))
    (h : (l.map (·.1)).Nodup) (p : String × List Todo) (hp : p ∈ l) :
    l.find? (fun q => q.1 = p.1) = some p := by
  induction l with
  | nil => cases hp
  | cons a l ih =>
    rw [List.map_cons, List.nodup_cons] at h
    rcases List.mem_cons.mp hp with heq | hmem
    · rw [heq]
      exact List.find?_cons_of_pos _ (by simp)
    · have hne : ¬a.1 = p.1 := by
        intro he
        exact h.1 (he ▸ List.mem_map_of_mem (·.1) hmem)
      rw [List.find?_cons_of_neg _ (by simpa using hne)]
      exact ih h.2 hmem

/-- Helper: every key produced by the key-fold was already a key or is the
category of some processed todo. -/
theorem mem_foldl_keys (cats : List String) :
    ∀ (ks : List String) (c : String),
      c ∈ cats.foldl (fun ks c' => if ks.any (fun k => k = c') then ks
        else ks ++ [c']) ks →
      c ∈ ks ∨ c ∈ cats := by
  induction cats with
  | nil => intro ks c h; exact Or.inl h
  | cons a cs ih =>
    intro ks c h
    simp only [List.foldl_cons] at h
    rcases ih _ c h with h' | h'
    · by_cases hc : ks.any (fun k => k = a)
      · rw [if_pos hc] at h'
        exact Or.inl h'
      · rw [if_neg hc, List.mem_append] at h'
        rcases h' with h' | h'
        · exact Or.inl h'
        · rw [List.mem_singleton] at h'
          exact Or.inr (h' ▸ List.mem_cons_self a cs)
    · exact Or.inr (List.mem_cons_of_mem a h')

/-- Helper: property enumeration keeps the insertion order untouched when no
key is a canonical array index. -/
theorem jsEntries_eq_self (l : List (String × List Todo))
    (h : ∀ p ∈ l, isCanonicalIndex p.1 = false) :
    jsEntries l = l := by
  rw [jsEntries]
  have h1 : l.filter (fun p => isCanonicalIndex p.1) = [] := by
    rw [List.filter_eq_nil_iff]
    intro p hp
    simp [h p hp]
  have h2 : l.filter (fun p => !(isCanonicalIndex p.1)) = l := by
    rw [List.filter_eq_self]
    intro p hp
    simp [h p hp]
  rw [h1, h2]
  rfl

/-- C5 counterexample: with the canonical array-index categories `1` (at
position 0) and `0` (at position 1), `Object.entries` enumerates the group
keys in ascending numeric order `0, 1`, not in the first-occurrence order
`1, 0` of the position-sorted list. -/
theorem grouped_numeric_key_counterexample :
    (grouped [sampleCat1, sampleCat0]).map (·.1) = ["0", "1"] ∧
    firstKeys ((orderedTodos [sampleCat1, sampleCat0]).map (·.category)) =
      ["1", "0"] ∧
    (["0", "1"] : List String) ≠ ["1", "0"] := by decide

/-- C5 (amended): provided no category is a canonical array-index string (in
which case JavaScript object property order departs from insertion order), the
grouped view's keys appear in first-occurrence order of the position-sorted
list, and each group holds exactly the todos of its category in the order of
the position-sorted list. -/
theorem grouped_first_occurrence (ts : List Todo)
    (h : ∀ t ∈ ts, isCanonicalIndex t.category = false) :
    (grouped ts).map (·.1) = firstKeys ((orderedTodos ts).map (·.category)) ∧
    ∀ p ∈ grouped ts, p.2 = (orderedTodos ts).filter (fun t => t.category = p.1) := by
  have hord : ∀ t ∈ orderedTodos ts, isCanonicalIndex t.category = false := by
    intro t htmem
    exact h t ((List.perm_insertionSort _ ts).mem_iff.mp htmem)
  have hkeys : (groupedObj ts).map (·.1) =
      firstKeys ((orderedTodos ts).map (·.category)) := by
    rw [groupedObj, keys_foldl, firstKeys, List.foldl_map]
    rfl
  have hnokey : ∀ p ∈ groupedObj ts, isCanonicalIndex p.1 = false := by
    intro p hp
    have hmem : p.1 ∈ (groupedObj ts).map (·.1) := List.mem_map_of_mem (·.1) hp
    rw [hkeys, firstKeys] at hmem
    rcases mem_foldl_keys _ [] p.1 hmem with h' | h'
    · cases h'
    · obtain ⟨t, htm, hteq⟩ := List.mem_map.mp h'
      rw [← hteq]
      exact hord t htm
  have hjs : grouped ts = groupedObj ts := jsEntries_eq_self _ hnokey
  constructor
  · rw [hjs, hkeys]
  · intro p hp
    rw [hjs] at hp
    have hnd : ((groupedObj ts).map (·.1)).Nodup :=
      nodup_keys_foldl _ [] List.nodup_nil
    have hfind := find_self_of_nodup _ hnd p hp
    have hlk : lookupG (groupedObj ts) p.1 = some p.2 := by
      rw [lookupG, hfind]
      rfl
    rw [groupedObj, lookupG_foldl,
      show lookupG ([] : List (String × List Todo)) p.1 = none from rfl,
      combineG] at hlk
    split at hlk
    · cases hlk
    · exact (Option.some_inj.mp hlk).symm

/-- C5 witness: three todos in categories `work, errands, work` (by position)
group into keys `[work, errands]` with the two `work` todos kept in position
order. -/
theorem grouped_first_occurrence_witness :
    (grouped [sampleC, sampleA, sampleB]).map (·.1) =
      firstKeys ((orderedTodos [sampleC, sampleA, sampleB]).map (·.category)) ∧
    ∀ p ∈ grouped [sampleC, sampleA, sampleB],
      p.2 = (orderedTodos [sampleC, sampleA, sampleB]).filter
        (fun t => t.category = p.1) :=
  grouped_first_occurrence [sampleC, sampleA, sampleB] (by decide)

end TodoApp
